import Mathlib

/-!
Verification development for the claim-memory cache of the Mnemonic
persistent-claim-memory repository.

The Python source is shallowly embedded:
* configuration constants come from `src/src/config.py`;
* the retrieval layer (`src/backend/src/agents/retriever.py`) is modelled on
  lists of retrieved candidates — a Qdrant `ScoredPoint` (payload + cosine
  score) is modelled directly by the `RetrievedClaim` record the code builds
  from it, with raw similarity scores as rationals and the Gaussian
  time-decayed score as a real number;
* timestamps are modelled by their parsed outcome relative to the fixed
  "now" of a request (`TimeInfo`): missing, unparseable, or an age in days;
* the memory layer (`src/backend/src/agents/memory.py`) is modelled as a
  pure state transformer on a list of stored claim records, with the vector
  store's answer to the dedup query passed in as data;
* the pipeline (`src/backend/src/pipeline.py`) is modelled with the outcome
  of each stage's external calls (success value or raised exception message)
  passed in as data, and each node function translated from its Python body.
-/

namespace Mnemonic

/-! ### Configuration constants — `src/src/config.py` -/

def SIMILARITY_THRESHOLD : ℚ := 92/100

def CACHE_HIT_THRESHOLD : ℚ := 85/100

def CACHE_MAX_AGE_DAYS : ℤ := 3

def TIME_DECAY_SIGMA_DAYS : ℚ := 90

def DEFAULT_TOP_K : ℕ := 10

def VERDICT_TRUE : String := "True"

def VERDICT_FALSE : String := "False"

def VERDICT_UNCERTAIN : String := "Uncertain"

def HIGH_CONFIDENCE_THRESHOLD : ℚ := 7/10

def LOW_CONFIDENCE_THRESHOLD : ℚ := 1/2

/-- `MAX_CLAIM_LENGTH` from `src/src/validation.py`. -/
def MAX_CLAIM_LENGTH : ℕ := 2000

/-! ### Timestamps

A stored timestamp string, relative to the fixed `datetime.now()` of one
request, is either missing (empty/absent payload field), unparseable
(`datetime.fromisoformat`/`strptime` raises), or parses to a value whose
difference from now is `days` whole days (`timedelta.days`, which may be
negative for future timestamps). -/

inductive TimeInfo where
  | missing : TimeInfo
  | unparseable : TimeInfo
  | age (days : ℤ) : TimeInfo
deriving DecidableEq, Repr

/-! ### Retrieved candidates — `src/backend/src/agents/retriever.py`

`RetrievedClaim` is the dataclass built by `_convert_to_retrieved_claim`
from a store hit's payload together with its raw cosine `similarity_score`.
The derived `time_decayed_score` is real-valued and is carried alongside in
`apply_time_decay` rather than stored in the record. -/

structure RetrievedClaim where
  id : ℕ
  claim_text : String
  normalized_text : String
  verdict : String
  confidence : ℚ
  source : String
  source_reliability : ℚ
  timestamp : TimeInfo
  seen_count : ℕ
  similarity_score : ℚ
deriving DecidableEq, Repr

/-- `days_old` as computed in `_apply_time_decay`: parsed timestamps give
their age, a missing timestamp gives 0, and the exception branch for an
unparseable timestamp records 0 in the result tuple. -/
def days_old : TimeInfo → ℤ
  | .age d => d
  | _ => 0

/-- The Gaussian decay factor `exp(-(days_old^2) / (2 * sigma^2))`. -/
noncomputable def gaussianDecay (d : ℤ) : ℝ :=
  Real.exp (-(((d : ℝ)) ^ 2 / (2 * (TIME_DECAY_SIGMA_DAYS : ℝ) ^ 2)))

/-- `adjusted_score = result.score * (0.5 + 0.5 * decay)`. -/
noncomputable def decayFormula (raw : ℚ) (d : ℤ) : ℝ :=
  (raw : ℝ) * (1/2 + 1/2 * gaussianDecay d)

/-- The adjusted score assigned by `_apply_time_decay` to one result:
the Gaussian formula on its age (0 for a missing timestamp); the `except`
branch for an unparseable timestamp keeps the original score. -/
noncomputable def adjusted_score (r : RetrievedClaim) : ℝ :=
  match r.timestamp with
  | .unparseable => (r.similarity_score : ℝ)
  | t => decayFormula r.similarity_score (days_old t)

/-- The `decayed_results` list before sorting: each store result, in store
order, annotated with its adjusted score and `days_old`. -/
noncomputable def decayAnnotate (results : List RetrievedClaim) :
    List (RetrievedClaim × ℝ × ℤ) :=
  results.map (fun r => (r, adjusted_score r, days_old r.timestamp))

/-- The comparison used by `decayed_results.sort(key=lambda x: x[1],
reverse=True)`: descending by adjusted score; Python's sort is stable, as is
`List.mergeSort`. -/
noncomputable def decayLE (a b : RetrievedClaim × ℝ × ℤ) : Bool :=
  decide (b.2.1 ≤ a.2.1)

/-- `_apply_time_decay`: annotate with adjusted scores, then stable-sort
descending by adjusted score. -/
noncomputable def apply_time_decay (results : List RetrievedClaim) :
    List (RetrievedClaim × ℝ × ℤ) :=
  List.mergeSort (decayAnnotate results) decayLE

/-- `RetrievalAgent.search`, after the store has answered with `results`
(already converted to `RetrievedClaim`s): with decay it returns the
re-sorted candidates, without decay the store's order unchanged. -/
noncomputable def search (results : List RetrievedClaim)
    (apply_decay : Bool) : List RetrievedClaim :=
  if apply_decay then (apply_time_decay results).map (fun x => x.1)
  else results

/-- `RetrievalAgent.get_similar_claim`: top-1 search with decay disabled;
return the top hit iff its raw similarity reaches the threshold. -/
def get_similar_claim (results : List RetrievedClaim) (threshold : ℚ) :
    Option RetrievedClaim :=
  match results with
  | [] => none
  | top :: _ => if threshold ≤ top.similarity_score then some top else none

/-! ### Cache decision — `retrieve_node` in `src/backend/src/pipeline.py` -/

/-- The freshness check of `retrieve_node`: `is_recent` stays `True` for a
missing timestamp (the `if best_match.timestamp:` guard) and for an
unparseable one (the `except` branch); a parsed age must be at most
`CACHE_MAX_AGE_DAYS`. -/
def is_recent : TimeInfo → Bool
  | .age d => d ≤ CACHE_MAX_AGE_DAYS
  | _ => true

/-- The cache decision of `retrieve_node` on the (decay-ranked) results:
no candidates means no hit; otherwise high similarity AND recent. -/
def cacheHitDecision (results : List RetrievedClaim) : Bool :=
  match results with
  | [] => false
  | best :: _ =>
      CACHE_HIT_THRESHOLD ≤ best.similarity_score && is_recent best.timestamp

/-! ### Reasoner data — `src/src/agents/reasoner.py` -/

/-- The `VerificationResult` dataclass. -/
structure VerificationResult where
  claim_text : String
  normalized_claim : String
  verdict : String
  confidence : ℚ
  explanation : String
  evidence_ids : List String
  evidence_summary : String
  reasoning_trace : String
deriving DecidableEq, Repr

/-- Weight of one evidence item in `_calculate_consensus_confidence`:
`ev.source_reliability * ev.similarity_score`. -/
def evWeight (ev : RetrievedClaim) : ℚ :=
  ev.source_reliability * ev.similarity_score

/-- The accumulated `verdict_scores` entry for a verdict: the sum of the
weights of the evidence items carrying that verdict (0 for an absent key,
matching `verdict_scores.get(v, 0)`). -/
def verdictScore (evidence : List RetrievedClaim) (v : String) : ℚ :=
  ((evidence.filter (fun ev => ev.verdict = v)).map evWeight).sum

/-- The accumulated `total_weight`. -/
def totalWeight (evidence : List RetrievedClaim) : ℚ :=
  (evidence.map evWeight).sum

/-- `ReasoningAgent._calculate_consensus_confidence`. -/
def calculate_consensus_confidence (evidence : List RetrievedClaim)
    (predicted_verdict : String) : ℚ :=
  if evidence = [] then LOW_CONFIDENCE_THRESHOLD
  else if totalWeight evidence = 0 then LOW_CONFIDENCE_THRESHOLD
  else
    min (4/10 + verdictScore evidence predicted_verdict / totalWeight evidence
          * (58/100))
      (98/100)

/-- The initial `votes` dictionary of `_fallback_reasoning`, as an
insertion-ordered association list. -/
def votesInit : List (String × ℚ) :=
  [(VERDICT_TRUE, 0), (VERDICT_FALSE, 0), (VERDICT_UNCERTAIN, 0)]

/-- `votes[k] = votes.get(k, 0) + w` on an insertion-ordered dictionary:
update the existing entry in place, or append a new key at the end. -/
def addVote (d : List (String × ℚ)) (k : String) (w : ℚ) :
    List (String × ℚ) :=
  if d.any (fun p => p.1 = k) then
    d.map (fun p => if p.1 = k then (p.1, p.2 + w) else p)
  else d ++ [(k, w)]

/-- The `votes` dictionary after the voting loop of `_fallback_reasoning`
(weight `ev.similarity_score * ev.source_reliability`). -/
def votesOf (evidence : List RetrievedClaim) : List (String × ℚ) :=
  evidence.foldl
    (fun d ev => addVote d ev.verdict (ev.similarity_score * ev.source_reliability))
    votesInit

/-- Python's `max(votes, key=votes.get)` over an insertion-ordered
dictionary: the first key attaining the maximal value. -/
def pyMaxKey (d : List (String × ℚ)) : String :=
  match d with
  | [] => ""
  | p :: ps => (ps.foldl (fun best q => if best.2 < q.2 then q else best) p).1

/-- Dictionary lookup with default 0, `votes.get(k, 0)`. -/
def lookupVote : List (String × ℚ) → String → ℚ
  | [], _ => 0
  | p :: ps, k => if p.1 = k then p.2 else lookupVote ps k

/-- The total voting weight a verdict receives in `_fallback_reasoning`:
the sum over the evidence items carrying it of
`ev.similarity_score * ev.source_reliability`. -/
def voteScore (evidence : List RetrievedClaim) (v : String) : ℚ :=
  ((evidence.filter (fun ev => ev.verdict = v)).map
    (fun ev => ev.similarity_score * ev.source_reliability)).sum

/-- `_create_evidence_summary`, abstracted to its leading sentence (the full
string also reports verdict distribution and sources; no claim inspects
this field's contents). -/
def create_evidence_summary (evidence : List RetrievedClaim) : String :=
  if evidence = [] then "No evidence found in memory."
  else "Analyzed " ++ toString evidence.length ++ " similar claims."

/-- `ReasoningAgent._fallback_reasoning`: with no evidence, `Uncertain` at
confidence 0.3; otherwise weighted voting, the verdict with the highest
total weight (first in insertion order on ties) winning. -/
def fallback_reasoning (claim_text normalized_claim : String)
    (evidence : List RetrievedClaim) : VerificationResult :=
  if evidence = [] then
    { claim_text := claim_text
      normalized_claim := normalized_claim
      verdict := VERDICT_UNCERTAIN
      confidence := 3/10
      explanation := "Insufficient evidence in database"
      evidence_ids := []
      evidence_summary := "No relevant claims found"
      reasoning_trace := "Fallback: No evidence available" }
  else
    let verdict := pyMaxKey (votesOf evidence)
    { claim_text := claim_text
      normalized_claim := normalized_claim
      verdict := verdict
      confidence := calculate_consensus_confidence evidence verdict
      explanation := "Based on " ++ toString evidence.length
        ++ " similar claims in database"
      evidence_ids := (evidence.take 3).map (fun ev => toString ev.id)
      evidence_summary := create_evidence_summary evidence
      reasoning_trace := "Fallback: Used weighted voting from evidence" }

/-- The JSON object a successfully parsed LLM response yields in
`ReasoningAgent.reason` (with the code's defaults already applied for
absent keys). -/
structure LLMOutput where
  verdict : String
  confidence : ℚ
  explanation : String
  reasoning : String
  cited_ids : List String
deriving DecidableEq, Repr

/-- `ReasoningAgent.reason` after the prompt round-trip: a malformed or
failed LLM response (`Except.error`) is recovered by `_fallback_reasoning`;
a parsed one has its verdict validated against the three allowed values and
its confidence replaced by the consensus confidence when out of range. -/
def reason (claim_text normalized_claim : String)
    (evidence : List RetrievedClaim) (llm : Except String LLMOutput) :
    VerificationResult :=
  match llm with
  | .error _ => fallback_reasoning claim_text normalized_claim evidence
  | .ok out =>
      let verdict :=
        if out.verdict = VERDICT_TRUE ∨ out.verdict = VERDICT_FALSE
            ∨ out.verdict = VERDICT_UNCERTAIN then
          out.verdict
        else VERDICT_UNCERTAIN
      let confidence :=
        if out.confidence ≤ 1/100 ∨ 1 < out.confidence then
          calculate_consensus_confidence evidence verdict
        else out.confidence
      let cited_ids :=
        if out.cited_ids = [] then (evidence.take 3).map (fun ev => toString ev.id)
        else out.cited_ids
      { claim_text := claim_text
        normalized_claim := normalized_claim
        verdict := verdict
        confidence := confidence
        explanation := out.explanation
        evidence_ids := cited_ids
        evidence_summary := create_evidence_summary evidence
        reasoning_trace := out.reasoning }

/-! ### Memory layer — `src/backend/src/agents/memory.py`

The claim store is modelled as a list of persisted records; the vector
store's answer to the dedup query of `update_or_create` (its `search` with
`k=1`, time decay disabled) is passed in as data. -/

/-- A persisted claim record (the payload of one Qdrant point together with
its id and vectors), as written by `update_or_create`. -/
structure ClaimRecord where
  id : ℕ
  claim_text : String
  normalized_text : String
  verdict : String
  confidence : ℚ
  explanation : String
  evidence_ids : List String
  source : String
  source_reliability : ℚ
  timestamp : String
  first_seen : String
  last_seen : String
  seen_count : ℕ
  topic : Option String
  dense_text : List ℚ
  visual : Option (List ℚ)
deriving DecidableEq, Repr

/-- The `MemoryUpdateResult` dataclass (`claim_id` is `none` in the failure
branches, where the code uses an empty string). -/
structure MemoryUpdateResult where
  action : String
  claim_id : Option ℕ
  seen_count : ℕ
  message : String
deriving DecidableEq, Repr

/-- The per-call inputs of one `update_or_create` invocation: the
verification result to store, the store's answer to the dedup query, the
call's `datetime.now()`, the optional topic and visual embedding, the fresh
id `_generate_id()` would mint, and the dense embedding of the normalized
claim. -/
structure MergeOp where
  vr : VerificationResult
  dedupHits : List RetrievedClaim
  now : String
  topic : Option String
  visual_embedding : Option (List ℚ)
  newId : ℕ
  embedding : List ℚ
deriving DecidableEq, Repr

/-- The `set_payload` of the match branch: records whose id matches the
retrieved claim get `seen_count`, `last_seen` and `confidence` overwritten;
every other payload field (in particular `verdict`) is untouched. -/
def applyUpdate (store : List ClaimRecord) (existing : RetrievedClaim)
    (vr : VerificationResult) (now : String) : List ClaimRecord :=
  store.map (fun r =>
    if r.id = existing.id then
      { r with
        seen_count := existing.seen_count + 1
        last_seen := now
        confidence := max existing.confidence vr.confidence }
    else r)

/-- The new point built in the create branch of `update_or_create`
(`if visual_embedding:` is Python truthiness, so an empty visual vector is
not stored). -/
def newRecord (op : MergeOp) : ClaimRecord :=
  { id := op.newId
    claim_text := op.vr.claim_text
    normalized_text := op.vr.normalized_claim
    verdict := op.vr.verdict
    confidence := op.vr.confidence
    explanation := op.vr.explanation
    evidence_ids := op.vr.evidence_ids
    source := "user_verification"
    source_reliability := 7/10
    timestamp := op.now
    first_seen := op.now
    last_seen := op.now
    seen_count := 1
    topic := op.topic
    dense_text := op.embedding
    visual :=
      match op.visual_embedding with
      | some v => if v = [] then none else some v
      | none => none }

/-- `MemoryUpdateAgent.update_or_create` (success path of the store
writes): dedup-check via `get_similar_claim` at `SIMILARITY_THRESHOLD`,
then either update the matching record in place or append a new one. -/
def update_or_create (store : List ClaimRecord) (op : MergeOp) :
    List ClaimRecord × MemoryUpdateResult :=
  match get_similar_claim op.dedupHits SIMILARITY_THRESHOLD with
  | some existing =>
      (applyUpdate store existing op.vr op.now,
        { action := "updated"
          claim_id := some existing.id
          seen_count := existing.seen_count + 1
          message := "Updated existing claim. Seen "
            ++ toString (existing.seen_count + 1) ++ " times." })
  | none =>
      (store ++ [newRecord op],
        { action := "created"
          claim_id := some op.newId
          seen_count := 1
          message := "New claim added to memory." })

/-- The store after one `update_or_create` call. -/
def mergeStep (store : List ClaimRecord) (op : MergeOp) : List ClaimRecord :=
  (update_or_create store op).1

/-- The store after a sequence of `update_or_create` calls. -/
def runMerges (store : List ClaimRecord) (ops : List MergeOp) :
    List ClaimRecord :=
  ops.foldl mergeStep store

/-- Consistency of one call's store answer with the store contents: a dedup
match above threshold refers to a record actually in the store (same id and
payload fields used by the update), and the freshly minted id is not
already taken. -/
def opConsistent (store : List ClaimRecord) (op : MergeOp) : Bool :=
  (match get_similar_claim op.dedupHits SIMILARITY_THRESHOLD with
    | some ex =>
        store.all (fun r =>
          r.id ≠ ex.id ∨ (r.seen_count = ex.seen_count
            ∧ r.confidence = ex.confidence ∧ r.verdict = ex.verdict))
    | none => true)
  && !(store.any (fun r => r.id = op.newId))

/-- Consistency of each call of a sequence with the store state it runs
against. -/
def consistentRun : List ClaimRecord → List MergeOp → Bool
  | _, [] => true
  | store, op :: ops => opConsistent store op && consistentRun (mergeStep store op) ops

/-! ### Pipeline — `src/backend/src/pipeline.py`

Each node function is translated from its Python body; the outcome of the
external calls a node makes inside its `try` block (normalizer + embedding,
store search, web search, LLM reasoning, store write) is passed in as an
`Except`: `.ok` is the value the calls produced, `.error` the message of
the exception they raised. -/

/-- The `NormalizedClaim` dataclass of `src/src/agents/normalizer.py`. -/
structure NormalizedClaim where
  original_text : String
  normalized_text : String
  entities : List String
  temporal_markers : Option String
  source_type : String
  image_description : Option String
deriving DecidableEq, Repr

/-- One web search source entry kept in the state. -/
structure WebSource where
  title : String
  url : String
  content : String
  score : ℚ
deriving DecidableEq, Repr

/-- The `web_search_results` dictionary stored in the state. -/
structure WebSearchResults where
  query : String
  answer : Option String
  search_time : ℚ
  sources : List WebSource
deriving DecidableEq, Repr

/-- The `PipelineState` TypedDict. -/
structure PipelineState where
  raw_text : Option String
  image_path : Option String
  normalized_claim : Option NormalizedClaim
  claim_embedding : Option (List ℚ)
  retrieved_evidence : Option (List RetrievedClaim)
  cache_hit : Bool
  web_search_results : Option WebSearchResults
  web_search_used : Bool
  verification_result : Option VerificationResult
  memory_update_result : Option MemoryUpdateResult
  timestamp : String
  errors : List String
deriving DecidableEq, Repr

/-- Outcomes of the external calls made by the five stages during one
request: the normalizer+embedding call, the store search, whether a web
search collaborator is configured, the web search call, the reasoning call,
and the memory write. -/
structure StageOutcomes where
  normalize : Except String (NormalizedClaim × List ℚ)
  retrieve : Except String (List RetrievedClaim)
  hasWebAgent : Bool
  webSearch : Except String WebSearchResults
  reasonOut : Except String VerificationResult
  memoryOut : Except String MemoryUpdateResult
deriving Repr

/-- `normalize_node`: on failure, append the error and substitute the
default normalized claim built from the raw text. -/
def normalize_node (out : Except String (NormalizedClaim × List ℚ))
    (s : PipelineState) : PipelineState :=
  match out with
  | .ok (nc, emb) =>
      { s with normalized_claim := some nc, claim_embedding := some emb }
  | .error e =>
      { s with
        errors := s.errors ++ ["Normalization error: " ++ e]
        normalized_claim := some
          { original_text := s.raw_text.getD ""
            normalized_text := s.raw_text.getD ""
            entities := []
            temporal_markers := none
            source_type := "text"
            image_description := none } }

/-- `retrieve_node`: store the retrieved candidates and apply the cache
decision; on failure, append the error and substitute no evidence and no
cache hit. -/
def retrieve_node (out : Except String (List RetrievedClaim))
    (s : PipelineState) : PipelineState :=
  match out with
  | .ok results =>
      { s with
        retrieved_evidence := some results
        cache_hit := cacheHitDecision results }
  | .error e =>
      { s with
        errors := s.errors ++ ["Retrieval error: " ++ e]
        retrieved_evidence := some []
        cache_hit := false }

/-- `web_search_node`: reset the web fields, skip on a cache hit or with no
search collaborator, record results only when non-empty, append the error
on failure. -/
def web_search_node (hasAgent : Bool) (out : Except String WebSearchResults)
    (s : PipelineState) : PipelineState :=
  let s := { s with web_search_used := false, web_search_results := none }
  if s.cache_hit then s
  else if !hasAgent then s
  else
    match out with
    | .ok w =>
        if w.sources = [] then s
        else { s with web_search_used := true, web_search_results := some w }
    | .error e => { s with errors := s.errors ++ ["Web search error: " ++ e] }

/-- The default verification result substituted by `reason_node`'s `except`
branch. -/
def reasonErrorResult (s : PipelineState) (e : String) : VerificationResult :=
  { claim_text := (s.normalized_claim.map (fun nc => nc.original_text)).getD ""
    normalized_claim := (s.normalized_claim.map (fun nc => nc.normalized_text)).getD ""
    verdict := "Uncertain"
    confidence := 3/10
    explanation := "Error during reasoning: " ++ e
    evidence_ids := []
    evidence_summary := "Error occurred"
    reasoning_trace := "" }

/-- `reason_node`: store the reasoning result; on failure, append the error
and substitute the `Uncertain` default at confidence 0.3. -/
def reason_node (out : Except String VerificationResult)
    (s : PipelineState) : PipelineState :=
  match out with
  | .ok r => { s with verification_result := some r }
  | .error e =>
      { s with
        errors := s.errors ++ ["Reasoning error: " ++ e]
        verification_result := some (reasonErrorResult s e) }

/-- `memory_node`: run the memory update against the state's verification
result; on failure (including a missing verification result, which in the
code raises inside the `try`), append the error and substitute the
`action="error"` default. -/
def memory_node (out : Except String MemoryUpdateResult)
    (s : PipelineState) : PipelineState :=
  match s.verification_result with
  | none =>
      { s with
        errors := s.errors ++ ["Memory update error: missing verification result"]
        memory_update_result := some
          { action := "error", claim_id := none, seen_count := 0
            message := "missing verification result" } }
  | some _ =>
      match out with
      | .ok r => { s with memory_update_result := some r }
      | .error e =>
          { s with
            errors := s.errors ++ ["Memory update error: " ++ e]
            memory_update_result := some
              { action := "error", claim_id := none, seen_count := 0
                message := e } }

/-- The compiled linear graph: normalizer → retriever → web_search →
reasoner → memory. -/
def runPipeline (o : StageOutcomes) (s : PipelineState) : PipelineState :=
  memory_node o.memoryOut
    (reason_node o.reasonOut
      (web_search_node o.hasWebAgent o.webSearch
        (retrieve_node o.retrieve
          (normalize_node o.normalize s))))

/-- The initial state built by `ClaimVerificationPipeline.verify`. -/
def initialState (text image_path : Option String) (ts : String) :
    PipelineState :=
  { raw_text := text
    image_path := image_path
    normalized_claim := none
    claim_embedding := none
    retrieved_evidence := none
    cache_hit := false
    web_search_results := none
    web_search_used := false
    verification_result := none
    memory_update_result := none
    timestamp := ts
    errors := [] }

/-- The response dictionary assembled by `verify`. -/
structure VerifyResponse where
  normalized_claim : Option NormalizedClaim
  cache_hit : Bool
  web_search_used : Bool
  web_search_results : Option WebSearchResults
  evidence : List RetrievedClaim
  verification : Option VerificationResult
  memory : Option MemoryUpdateResult
  errors : List String
  timestamp : String
deriving DecidableEq, Repr

/-- `ClaimVerificationPipeline.verify` after input checks: run the pipeline
on the initial state and project the response. -/
def verify (o : StageOutcomes) (text image_path : Option String)
    (ts : String) : VerifyResponse :=
  let final := runPipeline o (initialState text image_path ts)
  { normalized_claim := final.normalized_claim
    cache_hit := final.cache_hit
    web_search_used := final.web_search_used
    web_search_results := final.web_search_results
    evidence := (final.retrieved_evidence.getD []).take 5
    verification := final.verification_result
    memory := final.memory_update_result
    errors := final.errors
    timestamp := final.timestamp }

/-- The cache flag left in the state by `retrieve_node`. -/
def retrieveCacheFlag (out : Except String (List RetrievedClaim)) : Bool :=
  match out with
  | .ok results => cacheHitDecision results
  | .error _ => false

/-- Whether the web-search stage actually performs its call: a configured
collaborator and no cache hit. -/
def webSearchRan (o : StageOutcomes) : Bool :=
  o.hasWebAgent && !(retrieveCacheFlag o.retrieve)

/-- The error entries one request accumulates: one descriptive entry per
failing stage, in stage order. -/
def pipelineErrors (o : StageOutcomes) : List String :=
  (match o.normalize with
    | .error e => ["Normalization error: " ++ e]
    | .ok _ => [])
  ++ (match o.retrieve with
    | .error e => ["Retrieval error: " ++ e]
    | .ok _ => [])
  ++ (if webSearchRan o then
      (match o.webSearch with
        | .error e => ["Web search error: " ++ e]
        | .ok _ => [])
    else [])
  ++ (match o.reasonOut with
    | .error e => ["Reasoning error: " ++ e]
    | .ok _ => [])
  ++ (match o.memoryOut with
    | .error e => ["Memory update error: " ++ e]
    | .ok _ => [])

/-! ### Input validation — `src/src/validation.py` and the request model of
`src/backend/api_server.py`

Text is modelled as its list of characters, with ASCII classifications for
Python's `str.isalpha`/`str.strip` (which are Unicode-aware in Python). -/

/-- Python `str.strip()`: drop leading and trailing whitespace. -/
def pyStrip (s : List Char) : List Char :=
  ((s.dropWhile Char.isWhitespace).reverse.dropWhile Char.isWhitespace).reverse

/-- ASCII model of Python `str.isprintable` for a single character. -/
def pyPrintable (c : Char) : Bool := 32 ≤ c.val && c.val ≤ 126

/-- `re.sub(r"\s+", " ", text)`: collapse every whitespace run to a single
space. -/
def collapse_ws : List Char → List Char
  | [] => []
  | c :: cs =>
      if c.isWhitespace then ' ' :: collapse_ws (cs.dropWhile Char.isWhitespace)
      else c :: collapse_ws cs
termination_by l => l.length
decreasing_by
  · have := (List.dropWhile_sublist (l := cs) Char.isWhitespace).length_le
    simp only [List.length_cons]
    omega
  · simp

/-- `sanitize_claim_text` (on already-stripped input): truncate to the
maximum length, keep printable characters plus newline/tab/space, collapse
whitespace runs to single spaces, escape backslashes then double quotes,
and strip.  The `[FILTERED]` substitution of the injection-pattern regexes
is a String → String rewriting that never raises and is not modelled
further; it does not affect acceptance. -/
def sanitize_claim_text (text : List Char) : List Char :=
  let t := text.take MAX_CLAIM_LENGTH
  let t := t.filter (fun c => pyPrintable c || c = '\n' || c = '\t' || c = ' ')
  let t := collapse_ws t
  let t := t.flatMap (fun c =>
    if c = '\\' then ['\\', '\\'] else if c = '"' then ['\\', '"'] else [c])
  pyStrip t

/-- `validate_claim_input`: reject absent/empty text, strip, enforce the
3–2000 length bounds and the at-least-one-alphabetic-character rule, then
return the sanitized text. -/
def validate_claim_input (text : Option (List Char)) :
    Except String (List Char) :=
  match text with
  | none => .error "Claim text is required"
  | some t =>
      if t = [] then .error "Claim text is required"
      else if (pyStrip t).length < 3 then
        .error "Claim is too short (minimum 3 characters)"
      else if MAX_CLAIM_LENGTH < (pyStrip t).length then
        .error "Claim exceeds maximum length"
      else if !((pyStrip t).any Char.isAlpha) then
        .error "Claim must contain text characters"
      else .ok (sanitize_claim_text (pyStrip t))

/-- The full request-validation path of `POST /verify`: the pydantic
`ClaimRequest` field constraints (`min_length=3`, `max_length=2000`), its
`field_validator` (non-blank, contains an alphabetic character, returns the
stripped text), then `validate_claim_input` on the stripped text inside the
endpoint. -/
def apiValidate (raw : List Char) : Except String (List Char) :=
  if raw.length < 3 then .error "raw_text: string too short"
  else if MAX_CLAIM_LENGTH < raw.length then .error "raw_text: string too long"
  else if pyStrip raw = [] then .error "Claim text cannot be empty"
  else if !(raw.any Char.isAlpha) then .error "Claim must contain text characters"
  else validate_claim_input (some (pyStrip raw))

/-! ### Theorems -/

/-- C1: for every verification request, `cache_hit` is true iff retrieval
returned at least one candidate and the top decay-ranked candidate has raw
`similarity_score ≥ 0.85` (equality counts as a hit) and, for a parseable
timestamp, age at most 3 days; with no candidates `cache_hit` is false
unconditionally.  The final conjunct ties the flag `retrieve_node` stores
into the state to this decision. -/
theorem cache_hit_policy :
    (∀ (results : List RetrievedClaim) (top : RetrievedClaim) (d : ℤ),
        results.head? = some top → top.timestamp = .age d →
        (cacheHitDecision results = true ↔
          CACHE_HIT_THRESHOLD ≤ top.similarity_score ∧ d ≤ CACHE_MAX_AGE_DAYS))
    ∧ cacheHitDecision [] = false
    ∧ (∀ (results : List RetrievedClaim) (s : PipelineState),
        (retrieve_node (.ok results) s).cache_hit = cacheHitDecision results) := by
  refine ⟨?_, rfl, ?_⟩
  · intro results top d hhead ht
    cases results with
    | nil => simp at hhead
    | cons best rest =>
      simp only [List.head?_cons, Option.some.injEq] at hhead
      subst hhead
      simp [cacheHitDecision, ht, is_recent]
  · intro results s
    rfl

/-- C3: `get_similar_claim` is the head of a decay-disabled search,
returns its candidate iff the store's top result has raw similarity at or
above the threshold (none otherwise), and consequently a fresh candidate at
similarity 0.90 is a cache hit on the read path but yields no dedup match
at the default write-path threshold 0.92. -/
theorem get_similar_claim_spec :
    (∀ (results : List RetrievedClaim) (threshold : ℚ),
        get_similar_claim results threshold =
          match search results false with
          | [] => none
          | top :: _ =>
              if threshold ≤ top.similarity_score then some top else none)
    ∧ (∀ (results : List RetrievedClaim) (threshold : ℚ) (top : RetrievedClaim),
        results.head? = some top →
        ((get_similar_claim results threshold).isSome ↔
          threshold ≤ top.similarity_score))
    ∧ (∀ threshold : ℚ, get_similar_claim [] threshold = none)
    ∧ (∀ c : RetrievedClaim, c.similarity_score = 9/10 →
        is_recent c.timestamp = true →
        cacheHitDecision [c] = true ∧
          get_similar_claim [c] SIMILARITY_THRESHOLD = none) := by
  refine ⟨?_, ?_, fun _ => rfl, ?_⟩
  · intro results threshold
    simp [search, get_similar_claim]
  · intro results threshold top hhead
    cases results with
    | nil => simp at hhead
    | cons best rest =>
      simp only [List.head?_cons, Option.some.injEq] at hhead
      subst hhead
      simp only [get_similar_claim]
      by_cases h : threshold ≤ best.similarity_score <;> simp [h]
  · intro c hscore hfresh
    constructor
    · simp [cacheHitDecision, hscore, hfresh, CACHE_HIT_THRESHOLD]
      norm_num
    · simp only [get_similar_claim, hscore, SIMILARITY_THRESHOLD]
      norm_num

/-- C6: a candidate with a missing or unparseable timestamp gets no decay
penalty (its adjusted score equals its raw similarity), passes the
freshness check, and as top candidate can be a cache hit on similarity
alone. -/
theorem missing_timestamp_leniency :
    (∀ r : RetrievedClaim,
        (r.timestamp = .missing ∨ r.timestamp = .unparseable) →
        adjusted_score r = (r.similarity_score : ℝ) ∧
          is_recent r.timestamp = true ∧ days_old r.timestamp = 0)
    ∧ (∀ (results : List RetrievedClaim) (top : RetrievedClaim),
        results.head? = some top →
        (top.timestamp = .missing ∨ top.timestamp = .unparseable) →
        (cacheHitDecision results = true ↔
          CACHE_HIT_THRESHOLD ≤ top.similarity_score)) := by
  constructor
  · intro r hr
    rcases hr with h | h
    · refine ⟨?_, by simp [is_recent, h], by simp [days_old, h]⟩
      simp only [adjusted_score, h, decayFormula, gaussianDecay, days_old]
      push_cast
      rw [show (-(0 ^ 2 / (2 * (TIME_DECAY_SIGMA_DAYS : ℝ) ^ 2)) : ℝ) = 0 by
        norm_num]
      rw [Real.exp_zero]
      ring
    · exact ⟨by simp [adjusted_score, h], by simp [is_recent, h],
        by simp [days_old, h]⟩
  · intro results top hhead ht
    cases results with
    | nil => simp at hhead
    | cons best rest =>
      simp only [List.head?_cons, Option.some.injEq] at hhead
      subst hhead
      rcases ht with h | h <;> simp [cacheHitDecision, is_recent, h]

/-- The descending comparison used by `_apply_time_decay` is transitive. -/
theorem decayLE_trans (a b c : RetrievedClaim × ℝ × ℤ) :
    decayLE a b = true → decayLE b c = true → decayLE a c = true := by
  simp only [decayLE, decide_eq_true_eq]
  intro h1 h2
  exact le_trans h2 h1

/-- The descending comparison used by `_apply_time_decay` is total. -/
theorem decayLE_total (a b : RetrievedClaim × ℝ × ℤ) :
    (decayLE a b || decayLE b a) = true := by
  simp only [decayLE, Bool.or_eq_true, decide_eq_true_eq]
  exact le_total _ _

/-- C4: with time decay applied, a candidate with a parseable timestamp
gets adjusted score `raw * (0.5 + 0.5 * exp(-(days²)/(2·90²)))`; for fixed
raw similarity `> 0` this is strictly decreasing in the age and equals the
raw similarity at age 0; and the returned list is a permutation of the
annotated candidates, sorted descending by adjusted score, with ties
keeping the store's original order (stability). -/
theorem time_decay_spec :
    (∀ (r : RetrievedClaim) (d : ℤ), r.timestamp = .age d →
        adjusted_score r = (r.similarity_score : ℝ) *
          (1/2 + 1/2 * Real.exp (-(((d : ℝ)) ^ 2 / (2 * (90 : ℝ) ^ 2)))))
    ∧ (∀ (s : ℚ) (d₁ d₂ : ℤ), 0 < s → 0 ≤ d₁ → d₁ < d₂ →
        decayFormula s d₂ < decayFormula s d₁)
    ∧ (∀ s : ℚ, decayFormula s 0 = (s : ℝ))
    ∧ (∀ results : List RetrievedClaim,
        (apply_time_decay results).Pairwise (fun a b => b.2.1 ≤ a.2.1))
    ∧ (∀ results : List RetrievedClaim,
        (apply_time_decay results).Perm (decayAnnotate results))
    ∧ (∀ (results : List RetrievedClaim) (a b : RetrievedClaim × ℝ × ℤ),
        a.2.1 = b.2.1 → [a, b].Sublist (decayAnnotate results) →
        [a, b].Sublist (apply_time_decay results)) := by
  refine ⟨?_, ?_, ?_, ?_, ?_, ?_⟩
  · intro r d h
    simp only [adjusted_score, h, days_old, decayFormula, gaussianDecay,
      TIME_DECAY_SIGMA_DAYS]
    norm_num
  · intro s d₁ d₂ hs h0 hlt
    have hs' : (0 : ℝ) < (s : ℚ) := by exact_mod_cast hs
    have hd1 : (0 : ℝ) ≤ (d₁ : ℤ) := by exact_mod_cast h0
    have hdd : ((d₁ : ℤ) : ℝ) < ((d₂ : ℤ) : ℝ) := by exact_mod_cast hlt
    have hsq : ((d₁ : ℤ) : ℝ) ^ 2 < ((d₂ : ℤ) : ℝ) ^ 2 :=
      sq_lt_sq' (by linarith) hdd
    have hden : (0 : ℝ) < 2 * (TIME_DECAY_SIGMA_DAYS : ℝ) ^ 2 := by
      simp only [TIME_DECAY_SIGMA_DAYS]
      norm_num
    have hexp : Real.exp (-(((d₂ : ℤ) : ℝ) ^ 2 / (2 * (TIME_DECAY_SIGMA_DAYS : ℝ) ^ 2)))
        < Real.exp (-(((d₁ : ℤ) : ℝ) ^ 2 / (2 * (TIME_DECAY_SIGMA_DAYS : ℝ) ^ 2))) := by
      apply Real.exp_lt_exp.mpr
      have := (div_lt_div_iff_of_pos_right hden).mpr hsq
      linarith
    simp only [decayFormula, gaussianDecay]
    have : (1 : ℝ)/2 + 1/2 * Real.exp (-(((d₂ : ℤ) : ℝ) ^ 2 / (2 * (TIME_DECAY_SIGMA_DAYS : ℝ) ^ 2)))
        < 1/2 + 1/2 * Real.exp (-(((d₁ : ℤ) : ℝ) ^ 2 / (2 * (TIME_DECAY_SIGMA_DAYS : ℝ) ^ 2))) := by
      linarith
    exact mul_lt_mul_of_pos_left this hs'
  · intro s
    simp only [decayFormula, gaussianDecay, TIME_DECAY_SIGMA_DAYS]
    push_cast
    rw [show (-((0 : ℝ) ^ 2 / (2 * (90 : ℝ) ^ 2))) = 0 by norm_num]
    rw [Real.exp_zero]
    ring
  · intro results
    have h := List.sorted_mergeSort decayLE_trans decayLE_total
      (decayAnnotate results)
    exact h.imp fun hab => by
      simpa [decayLE, decide_eq_true_eq] using hab
  · intro results
    exact List.mergeSort_perm _ _
  · intro results a b heq hsub
    apply List.pair_sublist_mergeSort decayLE_trans decayLE_total _ hsub
    simp only [decayLE, decide_eq_true_eq]
    exact le_of_eq heq.symm

/-- C2: when `get_similar_claim` finds an existing record at or above the
dedup threshold, it is updated in place — `seen_count` incremented by
exactly 1, `last_seen` set to now, `confidence` set to the maximum of the
existing and new confidences — and no stored verdict is ever rewritten;
with no match, a new record is created with `seen_count = 1`,
`first_seen = last_seen = now`, the fresh dense vector always stored and a
visual vector stored only when provided. -/
theorem update_or_create_spec :
    (∀ (hits : List RetrievedClaim) (ex : RetrievedClaim),
        get_similar_claim hits SIMILARITY_THRESHOLD = some ex →
        SIMILARITY_THRESHOLD ≤ ex.similarity_score)
    ∧ (∀ (store : List ClaimRecord) (op : MergeOp) (ex : RetrievedClaim),
        get_similar_claim op.dedupHits SIMILARITY_THRESHOLD = some ex →
        (update_or_create store op).2.action = "updated"
          ∧ (update_or_create store op).2.seen_count = ex.seen_count + 1
          ∧ (update_or_create store op).1.map (fun r => r.verdict)
              = store.map (fun r => r.verdict)
          ∧ (∀ r ∈ store, r.id ≠ ex.id → r ∈ (update_or_create store op).1)
          ∧ (∀ r ∈ store, r.id = ex.id → r.seen_count = ex.seen_count →
              r.confidence = ex.confidence →
              { r with
                seen_count := r.seen_count + 1
                last_seen := op.now
                confidence := max r.confidence op.vr.confidence }
                ∈ (update_or_create store op).1))
    ∧ (∀ (store : List ClaimRecord) (op : MergeOp),
        get_similar_claim op.dedupHits SIMILARITY_THRESHOLD = none →
        (update_or_create store op).1 = store ++ [newRecord op]
          ∧ (update_or_create store op).2.action = "created"
          ∧ (update_or_create store op).2.seen_count = 1
          ∧ (newRecord op).seen_count = 1
          ∧ (newRecord op).first_seen = op.now
          ∧ (newRecord op).last_seen = op.now
          ∧ (newRecord op).dense_text = op.embedding
          ∧ ((newRecord op).visual ≠ none → op.visual_embedding ≠ none)
          ∧ (∀ v, op.visual_embedding = some v → v ≠ [] →
              (newRecord op).visual = some v)) := by
  refine ⟨?_, ?_, ?_⟩
  · intro hits ex hfound
    cases hits with
    | nil => simp [get_similar_claim] at hfound
    | cons top rest =>
      simp only [get_similar_claim] at hfound
      by_cases h : SIMILARITY_THRESHOLD ≤ top.similarity_score
      · simp only [h, if_pos, Option.some.injEq] at hfound
        subst hfound
        exact h
      · simp [h] at hfound
  · intro store op ex hfound
    refine ⟨by simp [update_or_create, hfound],
      by simp [update_or_create, hfound], ?_, ?_, ?_⟩
    · simp only [update_or_create, hfound, applyUpdate, List.map_map]
      apply List.map_congr_left
      intro r _
      by_cases h : r.id = ex.id <;> simp [h]
    · intro r hr hne
      simp only [update_or_create, hfound, applyUpdate, List.mem_map]
      exact ⟨r, hr, by simp [hne]⟩
    · intro r hr hid hseen hconf
      simp only [update_or_create, hfound, applyUpdate, List.mem_map]
      refine ⟨r, hr, ?_⟩
      rw [if_pos hid, ← hseen, ← hconf]
  · intro store op hfound
    refine ⟨by simp [update_or_create, hfound],
      by simp [update_or_create, hfound],
      by simp [update_or_create, hfound],
      rfl, rfl, rfl, rfl, ?_, ?_⟩
    · intro hv
      simp only [newRecord] at hv
      cases hve : op.visual_embedding with
      | none => simp [hve] at hv
      | some v => simp [hve]
    · intro v hve hnil
      simp [newRecord, hve, hnil]

/-- Helper: one `update_or_create` call, when the store answer is
consistent with the store contents, maps every pre-existing record to a
record with the same id, no smaller `seen_count` and `confidence`, and the
same verdict. -/
theorem mergeStep_mono (store : List ClaimRecord) (op : MergeOp)
    (hcons : opConsistent store op = true) :
    ∀ r ∈ store, ∃ r' ∈ mergeStep store op,
      r'.id = r.id ∧ r.seen_count ≤ r'.seen_count ∧
      r.confidence ≤ r'.confidence ∧ r'.verdict = r.verdict := by
  intro r hr
  cases hfound : get_similar_claim op.dedupHits SIMILARITY_THRESHOLD with
  | none =>
      refine ⟨r, ?_, rfl, le_refl _, le_refl _, rfl⟩
      simp only [mergeStep, update_or_create, hfound]
      exact List.mem_append_left _ hr
  | some ex =>
      simp only [opConsistent, hfound, Bool.and_eq_true, List.all_eq_true,
        decide_eq_true_eq] at hcons
      by_cases hid : r.id = ex.id
      · have hfields := hcons.1 r hr
        rcases hfields with h | ⟨hseen, hconf, hverd⟩
        · exact absurd hid h
        · refine ⟨{ r with
              seen_count := ex.seen_count + 1
              last_seen := op.now
              confidence := max ex.confidence op.vr.confidence },
            ?_, rfl, ?_, ?_, rfl⟩
          · simp only [mergeStep, update_or_create, hfound, applyUpdate,
              List.mem_map]
            exact ⟨r, hr, by rw [if_pos hid]⟩
          · rw [hseen]
            show ex.seen_count ≤ ex.seen_count + 1
            omega
          · rw [hconf]
            show ex.confidence ≤ max ex.confidence op.vr.confidence
            exact le_max_left _ _
      · refine ⟨r, ?_, rfl, le_refl _, le_refl _, rfl⟩
        simp only [mergeStep, update_or_create, hfound, applyUpdate,
          List.mem_map]
        exact ⟨r, hr, by rw [if_neg hid]⟩

/-- Helper: `mergeStep_mono` extended along a consistent sequence of
`update_or_create` calls. -/
theorem runMerges_mono (ops : List MergeOp) :
    ∀ store : List ClaimRecord, consistentRun store ops = true →
    ∀ r ∈ store, ∃ r' ∈ runMerges store ops,
      r'.id = r.id ∧ r.seen_count ≤ r'.seen_count ∧
      r.confidence ≤ r'.confidence ∧ r'.verdict = r.verdict := by
  induction ops with
  | nil =>
      intro store _ r hr
      exact ⟨r, hr, rfl, le_refl _, le_refl _, rfl⟩
  | cons op ops ih =>
      intro store hcons r hr
      simp only [consistentRun, Bool.and_eq_true] at hcons
      obtain ⟨r₁, hr₁, hid₁, hseen₁, hconf₁, hverd₁⟩ :=
        mergeStep_mono store op hcons.1 r hr
      obtain ⟨r₂, hr₂, hid₂, hseen₂, hconf₂, hverd₂⟩ :=
        ih (mergeStep store op) hcons.2 r₁ hr₁
      refine ⟨r₂, ?_, by rw [hid₂, hid₁], le_trans hseen₁ hseen₂,
        le_trans hconf₁ hconf₂, by rw [hverd₂, hverd₁]⟩
      simpa [runMerges] using hr₂

/-- C5: across any consistent sequence of merge operations, a stored
record's `seen_count` never decreases, its `confidence` is monotonically
non-decreasing, and its verdict is unchanged; and one call whose dedup
query matches a stored record increments that record's `seen_count` by
exactly 1 while rewriting no stored verdict. -/
theorem merge_seen_count_confidence_invariants :
    (∀ (store : List ClaimRecord) (ops : List MergeOp),
        consistentRun store ops = true →
        ∀ r ∈ store, ∃ r' ∈ runMerges store ops,
          r'.id = r.id ∧ r.seen_count ≤ r'.seen_count ∧
          r.confidence ≤ r'.confidence ∧ r'.verdict = r.verdict)
    ∧ (∀ (store : List ClaimRecord) (op : MergeOp) (ex : RetrievedClaim),
        opConsistent store op = true →
        get_similar_claim op.dedupHits SIMILARITY_THRESHOLD = some ex →
        (mergeStep store op).map (fun q => q.verdict)
            = store.map (fun q => q.verdict)
          ∧ ∀ r ∈ store, r.id = ex.id →
              { r with
                seen_count := r.seen_count + 1
                last_seen := op.now
                confidence := max r.confidence op.vr.confidence }
                ∈ mergeStep store op) := by
  constructor
  · intro store ops hcons
    exact runMerges_mono ops store hcons
  · intro store op ex hcons hfound
    simp only [opConsistent, hfound, Bool.and_eq_true, List.all_eq_true,
      decide_eq_true_eq] at hcons
    constructor
    · simp only [mergeStep, update_or_create, hfound, applyUpdate,
        List.map_map]
      apply List.map_congr_left
      intro r _
      by_cases h : r.id = ex.id <;> simp [h]
    · intro r hr hid
      rcases hcons.1 r hr with h | ⟨hseen, hconf, _⟩
      · exact absurd hid h
      · simp only [mergeStep, update_or_create, hfound, applyUpdate,
          List.mem_map]
        refine ⟨r, hr, ?_⟩
        rw [if_pos hid, ← hseen, ← hconf]

set_option maxHeartbeats 2000000 in
/-- C7: for every request and every combination of stage failures, the
pipeline runs all five stages: it never aborts early, always reaches the
memory-update stage and produces a verification result and memory result, a
well-formed default is substituted at each failing stage, and the response
carries exactly the accumulated per-stage error entries. -/
theorem pipeline_never_aborts :
    (∀ (o : StageOutcomes) (text image : Option String) (ts : String),
        (verify o text image ts).verification.isSome = true
          ∧ (verify o text image ts).memory.isSome = true
          ∧ (verify o text image ts).normalized_claim.isSome = true
          ∧ (verify o text image ts).errors = pipelineErrors o)
    ∧ (∀ (o : StageOutcomes) (text image : Option String) (ts e : String),
        o.retrieve = .error e →
        (verify o text image ts).evidence = []
          ∧ (verify o text image ts).cache_hit = false)
    ∧ (∀ (o : StageOutcomes) (text image : Option String) (ts e : String),
        o.reasonOut = .error e →
        (verify o text image ts).verification.map (fun v => v.verdict)
            = some "Uncertain"
          ∧ (verify o text image ts).verification.map (fun v => v.confidence)
            = some (3/10)) := by
  refine ⟨?_, ?_, ?_⟩
  · intro o text image ts
    obtain ⟨n, r, ha, w, re, m⟩ := o
    cases n <;> cases r <;> cases ha <;> cases w <;> cases re <;> cases m <;>
      simp only [verify, runPipeline, normalize_node, retrieve_node,
        web_search_node, reason_node, memory_node, initialState,
        pipelineErrors, webSearchRan, retrieveCacheFlag] <;>
      first
      | (split_ifs <;> simp_all)
      | simp_all
  · intro o text image ts e hre
    obtain ⟨n, r, ha, w, re, m⟩ := o
    cases hre
    cases n <;> cases ha <;> cases w <;> cases re <;> cases m <;>
      simp only [verify, runPipeline, normalize_node, retrieve_node,
        web_search_node, reason_node, memory_node, initialState] <;>
      first
      | (split_ifs <;> simp_all)
      | simp_all
  · intro o text image ts e hre
    obtain ⟨n, r, ha, w, re, m⟩ := o
    cases hre
    cases n <;> cases r <;> cases ha <;> cases w <;> cases m <;>
      simp only [verify, runPipeline, normalize_node, retrieve_node,
        web_search_node, reason_node, memory_node, initialState,
        reasonErrorResult] <;>
      first
      | (split_ifs <;> simp_all)
      | simp_all

/-- Helper: `addVote` preserves the key list when the key is present and
appends it otherwise. -/
theorem addVote_keys (d : List (String × ℚ)) (k : String) (w : ℚ) :
    (addVote d k w).map Prod.fst =
      if d.any (fun p => p.1 = k) then d.map Prod.fst
      else d.map Prod.fst ++ [k] := by
  by_cases hany : d.any (fun p => p.1 = k) = true
  · simp only [addVote, hany, if_pos, List.map_map]
    apply List.map_congr_left
    intro p _
    by_cases h : p.1 = k <;> simp [h]
  · simp [addVote, hany]

/-- Helper: `addVote` preserves distinctness of the keys. -/
theorem addVote_nodup (d : List (String × ℚ)) (k : String) (w : ℚ)
    (hnd : (d.map Prod.fst).Nodup) :
    ((addVote d k w).map Prod.fst).Nodup := by
  rw [addVote_keys]
  by_cases hany : d.any (fun p => p.1 = k) = true
  · simpa [hany] using hnd
  · have hk : k ∉ d.map Prod.fst := by
      intro hkm
      obtain ⟨p, hp, hp1⟩ := List.mem_map.mp hkm
      exact hany (List.any_eq_true.mpr ⟨p, hp, by simp [hp1]⟩)
    simp only [hany, if_neg, Bool.false_eq_true, not_false_iff]
    simp [List.nodup_append, hnd, hk]

/-- Helper: lookup in the in-place-updated dictionary at the updated key. -/
theorem lookup_mapUpd_same (d : List (String × ℚ)) (k : String) (w : ℚ) :
    lookupVote (d.map (fun p => if p.1 = k then (p.1, p.2 + w) else p)) k
      = if d.any (fun p => p.1 = k) then lookupVote d k + w
        else lookupVote d k := by
  induction d with
  | nil => simp [lookupVote]
  | cons p ps ih =>
    by_cases hp : p.1 = k
    · simp [lookupVote, hp, ih]
    · have hd : decide (p.1 = k) = false := decide_eq_false hp
      simp only [List.map_cons, if_neg hp, List.any_cons, hd, Bool.false_or]
      simp only [lookupVote, if_neg hp]
      exact ih

/-- Helper: lookup in the in-place-updated dictionary at another key. -/
theorem lookup_mapUpd_other (d : List (String × ℚ)) (k : String) (w : ℚ)
    (k' : String) (h : k' ≠ k) :
    lookupVote (d.map (fun p => if p.1 = k then (p.1, p.2 + w) else p)) k'
      = lookupVote d k' := by
  have hk : ¬ k = k' := fun he => h he.symm
  induction d with
  | nil => simp
  | cons p ps ih =>
    by_cases hp : p.1 = k
    · have hp' : p.1 ≠ k' := by rw [hp]; exact hk
      simp [lookupVote, hp, hp', hk, ih]
    · by_cases hp' : p.1 = k'
      · have hkk : ¬ k' = k := h
        simp [lookupVote, hp, hp', hkk]
      · simp [lookupVote, hp, hp', ih]

/-- Helper: lookup of an absent key is 0. -/
theorem lookupVote_eq_zero_of_not_any (d : List (String × ℚ)) (k : String)
    (h : ¬ d.any (fun p => p.1 = k) = true) : lookupVote d k = 0 := by
  induction d with
  | nil => rfl
  | cons p ps ih =>
    simp only [List.any_cons, Bool.or_eq_true, decide_eq_true_eq] at h
    push_neg at h
    simp [lookupVote, h.1, ih (by simpa using h.2)]

/-- Helper: lookup after appending a fresh entry, at its key. -/
theorem lookup_append_one_same (d : List (String × ℚ)) (k : String) (w : ℚ)
    (h : ¬ d.any (fun p => p.1 = k) = true) :
    lookupVote (d ++ [(k, w)]) k = w := by
  induction d with
  | nil => simp [lookupVote]
  | cons p ps ih =>
    simp only [List.any_cons, Bool.or_eq_true, decide_eq_true_eq] at h
    push_neg at h
    simp [lookupVote, h.1, ih (by simpa using h.2)]

/-- Helper: lookup after appending an entry, at another key. -/
theorem lookup_append_one_other (d : List (String × ℚ)) (k : String) (w : ℚ)
    (k' : String) (h : k' ≠ k) :
    lookupVote (d ++ [(k, w)]) k' = lookupVote d k' := by
  have hk : ¬ k = k' := fun he => h he.symm
  induction d with
  | nil => simp [lookupVote, hk]
  | cons p ps ih =>
    by_cases hp : p.1 = k'
    · simp [lookupVote, hp]
    · simp [lookupVote, hp, ih]

/-- Helper: the dictionary update `votes[k] = votes.get(k, 0) + w` changes
exactly the looked-up value of `k`. -/
theorem lookupVote_addVote (d : List (String × ℚ)) (k : String) (w : ℚ)
    (k' : String) :
    lookupVote (addVote d k w) k'
      = lookupVote d k' + (if k' = k then w else 0) := by
  by_cases hany : d.any (fun p => p.1 = k) = true
  · simp only [addVote, hany, if_pos]
    by_cases hk : k' = k
    · subst hk
      rw [lookup_mapUpd_same]
      simp [hany]
    · rw [lookup_mapUpd_other d k w k' hk]
      simp [hk]
  · simp only [addVote, hany, if_neg, Bool.false_eq_true, not_false_iff]
    by_cases hk : k' = k
    · subst hk
      rw [lookup_append_one_same d k' w hany,
        lookupVote_eq_zero_of_not_any d k' hany]
      simp
    · rw [lookup_append_one_other d k w k' hk]
      simp [hk]

/-- Helper: existing keys survive `addVote`. -/
theorem addVote_keys_subset (d : List (String × ℚ)) (k : String) (w : ℚ)
    (k' : String) (h : k' ∈ d.map Prod.fst) :
    k' ∈ (addVote d k w).map Prod.fst := by
  rw [addVote_keys]
  by_cases hany : d.any (fun p => p.1 = k) = true <;> simp [hany, h]

/-- Helper: the voted key is a key after `addVote`. -/
theorem addVote_keys_self (d : List (String × ℚ)) (k : String) (w : ℚ) :
    k ∈ (addVote d k w).map Prod.fst := by
  rw [addVote_keys]
  by_cases hany : d.any (fun p => p.1 = k) = true
  · simp only [hany, if_pos]
    obtain ⟨p, hp, hp1⟩ := List.any_eq_true.mp hany
    simp only [decide_eq_true_eq] at hp1
    exact hp1 ▸ List.mem_map_of_mem Prod.fst hp
  · simp [hany]

/-- Helper: one evidence item's contribution to a verdict's vote total. -/
theorem voteScore_cons (ev : RetrievedClaim) (evs : List RetrievedClaim)
    (k : String) :
    voteScore (ev :: evs) k
      = (if ev.verdict = k then ev.similarity_score * ev.source_reliability
          else 0) + voteScore evs k := by
  by_cases h : ev.verdict = k <;> simp [voteScore, List.filter_cons, h]

/-- Helper: the voting loop of `_fallback_reasoning` computes, for every
key, the summed weight of the evidence carrying that verdict on top of the
initial dictionary; all initial keys and all seen verdicts end up as keys;
and distinctness of keys is preserved. -/
theorem voteFold_spec (evs : List RetrievedClaim) :
    ∀ d : List (String × ℚ),
      (∀ k, lookupVote
          (evs.foldl (fun d ev =>
            addVote d ev.verdict (ev.similarity_score * ev.source_reliability)) d) k
        = lookupVote d k + voteScore evs k)
      ∧ (∀ k, (k ∈ d.map Prod.fst ∨ k ∈ evs.map (fun ev => ev.verdict)) →
          k ∈ (evs.foldl (fun d ev =>
            addVote d ev.verdict (ev.similarity_score * ev.source_reliability)) d).map
              Prod.fst)
      ∧ ((d.map Prod.fst).Nodup →
          ((evs.foldl (fun d ev =>
            addVote d ev.verdict (ev.similarity_score * ev.source_reliability)) d).map
              Prod.fst).Nodup) := by
  induction evs with
  | nil =>
    intro d
    refine ⟨fun k => by simp [voteScore], fun k hk => ?_, fun h => by simpa using h⟩
    simp only [List.foldl_nil]
    rcases hk with h | h
    · exact h
    · simp at h
  | cons ev evs ih =>
    intro d
    obtain ⟨ihl, ihm, ihn⟩ :=
      ih (addVote d ev.verdict (ev.similarity_score * ev.source_reliability))
    refine ⟨fun k => ?_, fun k hk => ?_, fun h => ?_⟩
    · rw [List.foldl_cons, ihl k, lookupVote_addVote, voteScore_cons]
      by_cases hk : k = ev.verdict
      · simp [hk]
        ring
      · have : ¬ ev.verdict = k := fun he => hk he.symm
        simp [hk, this]
    · rw [List.foldl_cons]
      rcases hk with h | h
      · exact ihm k (Or.inl (addVote_keys_subset d ev.verdict _ k h))
      · have h' : k = ev.verdict ∨ ∃ a ∈ evs, a.verdict = k := by simpa using h
        rcases h' with h2 | ⟨a, ha, ha2⟩
        · subst h2
          exact ihm _ (Or.inl (addVote_keys_self d _ _))
        · exact ihm k (Or.inr (ha2 ▸ List.mem_map_of_mem _ ha))
    · rw [List.foldl_cons]
      exact ihn (addVote_nodup d ev.verdict _ h)

/-- Helper: Python's first-maximum fold returns an element of the list
whose value bounds every element's value. -/
theorem pyMax_fold (p : String × ℚ) (ps : List (String × ℚ)) :
    (ps.foldl (fun best q => if best.2 < q.2 then q else best) p) ∈ p :: ps
    ∧ ∀ r ∈ p :: ps,
        r.2 ≤ (ps.foldl (fun best q => if best.2 < q.2 then q else best) p).2 := by
  induction ps generalizing p with
  | nil => simp
  | cons q qs ih =>
    obtain ⟨hmem, hmax⟩ := ih (if p.2 < q.2 then q else p)
    constructor
    · rw [List.foldl_cons]
      rcases List.mem_cons.mp hmem with h | h
      · rw [h]
        by_cases hpq : p.2 < q.2 <;> simp [hpq]
      · exact List.mem_cons_of_mem _ (List.mem_cons_of_mem _ h)
    · intro r hr
      rw [List.foldl_cons]
      have hstep : (if p.2 < q.2 then q else p).2
          ≤ (qs.foldl (fun best q => if best.2 < q.2 then q else best)
              (if p.2 < q.2 then q else p)).2 :=
        hmax _ (List.mem_cons_self _ _)
      rcases List.mem_cons.mp hr with h | h
      · subst h
        have : r.2 ≤ (if r.2 < q.2 then q else r).2 := by
          by_cases hpq : r.2 < q.2 <;> simp [hpq]
          exact le_of_lt hpq
        exact le_trans this hstep
      · rcases List.mem_cons.mp h with h2 | h2
        · subst h2
          have : r.2 ≤ (if p.2 < r.2 then r else p).2 := by
            by_cases hpq : p.2 < r.2 <;> simp [hpq]
            exact le_of_not_lt hpq
          exact le_trans this hstep
        · exact hmax r (List.mem_cons_of_mem _ h2)

/-- Helper: with distinct keys, the looked-up value of an entry's key is
that entry's value. -/
theorem lookupVote_of_mem (d : List (String × ℚ))
    (hnd : (d.map Prod.fst).Nodup) :
    ∀ kv ∈ d, lookupVote d kv.1 = kv.2 := by
  induction d with
  | nil => simp
  | cons p ps ih =>
    intro kv hkv
    rcases List.mem_cons.mp hkv with h | h
    · subst h
      simp [lookupVote]
    · have hnd2 : (p.1 :: ps.map Prod.fst).Nodup := by
        rw [← List.map_cons]
        exact hnd
      have hcons := List.nodup_cons.mp hnd2
      have hp : ¬ p.1 = kv.1 := by
        intro he
        exact hcons.1 (he ▸ List.mem_map_of_mem Prod.fst h)
      simp only [lookupVote, if_neg hp]
      exact ih hcons.2 kv h

/-- Helper: every lookup in the initial votes dictionary is 0. -/
theorem lookupVote_votesInit (k : String) : lookupVote votesInit k = 0 := by
  simp only [votesInit, lookupVote]
  split_ifs <;> rfl

/-- Helper: the keys of the initial votes dictionary are distinct. -/
theorem votesInit_nodup : (votesInit.map Prod.fst).Nodup := by
  simp [votesInit, VERDICT_TRUE, VERDICT_FALSE, VERDICT_UNCERTAIN]

/-- Helper: the verdict chosen by `_fallback_reasoning`'s weighted vote has
a total weight at least that of the three standard verdicts and of every
verdict appearing in the evidence. -/
theorem fallback_winner (evidence : List RetrievedClaim) :
    ∀ v ∈ VERDICT_TRUE :: VERDICT_FALSE :: VERDICT_UNCERTAIN ::
        evidence.map (fun ev => ev.verdict),
      voteScore evidence v ≤ voteScore evidence (pyMaxKey (votesOf evidence)) := by
  obtain ⟨hlk, hmem, hnd⟩ := voteFold_spec evidence votesInit
  have hlk' : ∀ k, lookupVote (votesOf evidence) k = voteScore evidence k := by
    intro k
    rw [votesOf, hlk k, lookupVote_votesInit, zero_add]
  have hnd' : ((votesOf evidence).map Prod.fst).Nodup := hnd votesInit_nodup
  intro v hv
  have hvkeys : v ∈ (votesOf evidence).map Prod.fst := by
    apply hmem
    rcases List.mem_cons.mp hv with h | h
    · exact Or.inl (by simp [votesInit, h])
    · rcases List.mem_cons.mp h with h2 | h2
      · exact Or.inl (by simp [votesInit, h2])
      · rcases List.mem_cons.mp h2 with h3 | h3
        · exact Or.inl (by simp [votesInit, h3])
        · exact Or.inr h3
  obtain ⟨kv, hkv, hkv1⟩ := List.mem_map.mp hvkeys
  cases hd : votesOf evidence with
  | nil =>
    rw [hd] at hkv
    simp at hkv
  | cons p ps =>
    rw [hd] at hkv hlk' hnd'
    obtain ⟨hbmem, hbmax⟩ := pyMax_fold p ps
    set best := ps.foldl (fun best q => if best.2 < q.2 then q else best) p
      with hbest
    have hwin : pyMaxKey (p :: ps) = best.1 := rfl
    have hbestval : lookupVote (p :: ps) best.1 = best.2 :=
      lookupVote_of_mem (p :: ps) hnd' best hbmem
    have hkvval : lookupVote (p :: ps) kv.1 = kv.2 :=
      lookupVote_of_mem (p :: ps) hnd' kv hkv
    have h1 : voteScore evidence v = kv.2 := by
      rw [← hkv1, ← hkvval, hlk' kv.1]
    have h2 : voteScore evidence (pyMaxKey (p :: ps)) = best.2 := by
      rw [hwin, ← hbestval, hlk' best.1]
    rw [h1, h2]
    exact hbmax kv hkv

/-- Helper: the memory stage always records a memory-update result. -/
theorem memory_node_memory_isSome (out : Except String MemoryUpdateResult)
    (s : PipelineState) :
    (memory_node out s).memory_update_result.isSome = true := by
  cases hv : s.verification_result <;> cases out <;> simp [memory_node, hv]

/-- Helper: the memory stage never changes the verification result. -/
theorem memory_node_vr (out : Except String MemoryUpdateResult)
    (s : PipelineState) :
    (memory_node out s).verification_result = s.verification_result := by
  cases hv : s.verification_result <;> cases out <;> simp [memory_node, hv]

/-- Helper: the memory stage only appends to the error list. -/
theorem memory_node_errors (out : Except String MemoryUpdateResult)
    (s : PipelineState) :
    ∃ t, (memory_node out s).errors = s.errors ++ t := by
  cases hv : s.verification_result with
  | none =>
    exact ⟨["Memory update error: missing verification result"],
      by simp [memory_node, hv]⟩
  | some r =>
    cases out with
    | ok m => exact ⟨[], by simp [memory_node, hv]⟩
    | error e => exact ⟨["Memory update error: " ++ e], by simp [memory_node, hv]⟩

/-- C8: a malformed LLM response is recovered by the deterministic
heuristic fallback: weighted voting over the retrieved evidence with weight
`similarity_score * source_reliability`, the verdict with the highest total
weight winning, and `Uncertain` at confidence 0.3 with no evidence; when
the reasoning stage itself fails, the response's error list is non-empty;
and the memory-update stage still runs, against exactly the result the
reasoning stage produced. -/
theorem reasoning_fallback_spec :
    (∀ (claim_text normalized_claim e : String)
        (evidence : List RetrievedClaim),
        reason claim_text normalized_claim evidence (.error e)
          = fallback_reasoning claim_text normalized_claim evidence)
    ∧ (∀ claim_text normalized_claim : String,
        (fallback_reasoning claim_text normalized_claim []).verdict
            = VERDICT_UNCERTAIN
          ∧ (fallback_reasoning claim_text normalized_claim []).confidence
            = 3/10)
    ∧ (∀ (claim_text normalized_claim : String)
        (evidence : List RetrievedClaim), evidence ≠ [] →
        ∀ v ∈ VERDICT_TRUE :: VERDICT_FALSE :: VERDICT_UNCERTAIN ::
            evidence.map (fun ev => ev.verdict),
          voteScore evidence v ≤ voteScore evidence
            (fallback_reasoning claim_text normalized_claim evidence).verdict)
    ∧ (∀ (o : StageOutcomes) (text image : Option String) (ts e : String),
        o.reasonOut = .error e →
        (verify o text image ts).errors ≠ []
          ∧ (verify o text image ts).memory.isSome = true)
    ∧ (∀ (o : StageOutcomes) (text image : Option String) (ts : String)
        (r : VerificationResult),
        o.reasonOut = .ok r →
        (runPipeline o (initialState text image ts)).verification_result
            = some r
          ∧ (verify o text image ts).memory.isSome = true) := by
  refine ⟨?_, ?_, ?_, ?_, ?_⟩
  · intro claim_text normalized_claim e evidence
    rfl
  · intro claim_text normalized_claim
    constructor <;> rfl
  · intro claim_text normalized_claim evidence hne v hv
    have hverd : (fallback_reasoning claim_text normalized_claim evidence).verdict
        = pyMaxKey (votesOf evidence) := by
      simp [fallback_reasoning, hne]
    rw [hverd]
    exact fallback_winner evidence v hv
  · intro o text image ts e h
    constructor
    · obtain ⟨t, ht⟩ := memory_node_errors o.memoryOut
        (reason_node o.reasonOut
          (web_search_node o.hasWebAgent o.webSearch
            (retrieve_node o.retrieve
              (normalize_node o.normalize (initialState text image ts)))))
      have hv : (verify o text image ts).errors
          = (reason_node o.reasonOut
              (web_search_node o.hasWebAgent o.webSearch
                (retrieve_node o.retrieve
                  (normalize_node o.normalize (initialState text image ts))))).errors
            ++ t := ht
      rw [hv, h]
      simp [reason_node]
    · exact memory_node_memory_isSome o.memoryOut _
  · intro o text image ts r h
    constructor
    · show (memory_node o.memoryOut (reason_node o.reasonOut _)).verification_result
        = some r
      rw [memory_node_vr, h]
      rfl
    · exact memory_node_memory_isSome o.memoryOut _

/-- Helper: stripping never lengthens the text. -/
theorem pyStrip_length_le (s : List Char) : (pyStrip s).length ≤ s.length := by
  unfold pyStrip
  calc ((s.dropWhile Char.isWhitespace).reverse.dropWhile
          Char.isWhitespace).reverse.length
      = ((s.dropWhile Char.isWhitespace).reverse.dropWhile
          Char.isWhitespace).length := by rw [List.length_reverse]
    _ ≤ (s.dropWhile Char.isWhitespace).reverse.length :=
        (List.dropWhile_sublist _).length_le
    _ = (s.dropWhile Char.isWhitespace).length := by rw [List.length_reverse]
    _ ≤ s.length := (List.dropWhile_sublist _).length_le

/-- Helper: the head left by `dropWhile` fails the predicate. -/
theorem dropWhile_head_false {α : Type} {p : α → Bool} {l : List α} {a : α}
    (h : (l.dropWhile p).head? = some a) : p a = false := by
  have hw := List.head?_dropWhile_not p l
  rw [h] at hw
  exact hw

/-- Helper: `dropWhile` is the identity when the head already fails the
predicate. -/
theorem dropWhile_eq_self_of_head {α : Type} {p : α → Bool} {l : List α}
    (h : ∀ a, l.head? = some a → p a = false) : l.dropWhile p = l := by
  cases l with
  | nil => rfl
  | cons x xs =>
    rw [List.dropWhile_cons, if_neg]
    simp [h x rfl]

/-- Helper: Python `strip` is idempotent. -/
theorem pyStrip_idem (s : List Char) : pyStrip (pyStrip s) = pyStrip s := by
  set A := s.dropWhile Char.isWhitespace with hA
  set B := A.reverse.dropWhile Char.isWhitespace with hB
  show ((B.reverse.dropWhile Char.isWhitespace).reverse.dropWhile
      Char.isWhitespace).reverse = B.reverse
  have h1 : B.reverse.dropWhile Char.isWhitespace = B.reverse := by
    apply dropWhile_eq_self_of_head
    intro a ha
    rw [List.head?_reverse] at ha
    have hBne : B ≠ [] := by
      intro h
      rw [h] at ha
      exact Option.noConfusion ha
    have h2 : A.reverse.getLast? = some a := by
      conv_lhs =>
        rw [← List.takeWhile_append_dropWhile Char.isWhitespace A.reverse]
      rw [List.getLast?_append, ← hB, ha]
      rfl
    rw [List.getLast?_reverse] at h2
    exact dropWhile_head_false (hA ▸ h2)
  rw [h1, List.reverse_reverse]
  have h3 : B.dropWhile Char.isWhitespace = B := by
    apply dropWhile_eq_self_of_head
    intro a ha
    exact dropWhile_head_false (hB ▸ ha)
  rw [h3]

/-- Helper: an alphabetic character is not whitespace. -/
theorem isAlpha_not_isWhitespace (c : Char) (h : c.isAlpha = true) :
    c.isWhitespace = false := by
  cases hw : c.isWhitespace
  · rfl
  · exfalso
    have hc : ((c = ' ' ∨ c = '\t') ∨ c = '\r') ∨ c = '\n' := by
      simpa [Char.isWhitespace] using hw
    rcases hc with ((h1 | h1) | h1) | h1 <;> subst h1 <;>
      exact absurd h (by decide)

/-- Helper: stripping preserves whether any alphabetic character is
present. -/
theorem pyStrip_any_alpha (s : List Char) :
    (pyStrip s).any Char.isAlpha = s.any Char.isAlpha := by
  set A := s.dropWhile Char.isWhitespace with hA
  set B := A.reverse.dropWhile Char.isWhitespace with hB
  show B.reverse.any Char.isAlpha = s.any Char.isAlpha
  rcases hcase : s.any Char.isAlpha with _ | _
  · -- no alphabetic character anywhere, so none after stripping either
    rcases h2 : B.reverse.any Char.isAlpha with _ | _
    · rfl
    · exfalso
      obtain ⟨a, ha, hal⟩ := List.any_eq_true.mp h2
      have has : a ∈ s := by
        have h3 : a ∈ B := List.mem_reverse.mp ha
        have h4 : a ∈ A.reverse := List.dropWhile_subset _ h3
        have h5 : a ∈ A := List.mem_reverse.mp h4
        exact List.dropWhile_subset _ h5
      have := List.any_eq_true.mpr ⟨a, has, hal⟩
      rw [hcase] at this
      exact Bool.noConfusion this
  · -- some alphabetic character survives both trims
    obtain ⟨a, ha, hal⟩ := List.any_eq_true.mp hcase
    have hnw : Char.isWhitespace a = false := isAlpha_not_isWhitespace a hal
    have hin1 : a ∈ A := by
      have := List.takeWhile_append_dropWhile Char.isWhitespace s
      rw [← this] at ha
      rcases List.mem_append.mp ha with h | h
      · exact absurd (List.mem_takeWhile_imp h) (by simp [hnw])
      · exact h
    have hin2 : a ∈ B := by
      have := List.takeWhile_append_dropWhile Char.isWhitespace A.reverse
      have ha' : a ∈ A.reverse := List.mem_reverse.mpr hin1
      rw [← this] at ha'
      rcases List.mem_append.mp ha' with h | h
      · exact absurd (List.mem_takeWhile_imp h) (by simp [hnw])
      · exact h
    exact List.any_eq_true.mpr ⟨a, List.mem_reverse.mpr hin2, hal⟩

/-- C9: the request-validation path accepts a text (passing on its
sanitized, stripped form) if and only if it is non-empty, at least 3
characters after stripping, at most 2000 characters, and contains at least
one alphabetic character; otherwise it is rejected before the pipeline
starts. -/
theorem input_validation_spec :
    ∀ raw : List Char,
      ((∃ v, apiValidate raw = .ok v) ↔
        ¬(raw = [] ∨ (pyStrip raw).length < 3 ∨ MAX_CLAIM_LENGTH < raw.length
          ∨ raw.all (fun c => !c.isAlpha) = true))
      ∧ (∀ v, apiValidate raw = .ok v →
          v = sanitize_claim_text (pyStrip raw)) := by
  intro raw
  have hlen := pyStrip_length_le raw
  have hid := pyStrip_idem raw
  have halpha := pyStrip_any_alpha raw
  constructor
  · constructor
    · rintro ⟨v, hv⟩
      simp only [apiValidate, validate_claim_input] at hv
      split_ifs at hv with c1 c2 c3 c4 c5 c6 c7 <;> try simp at hv
      intro hC
      rcases hC with h | h | h | h
      · rw [h] at c1
        simp at c1
      · rw [hid] at c5
        exact c5 h
      · exact c2 h
      · obtain ⟨a, ha, hala⟩ := List.any_eq_true.mp (by simpa using c4)
        have hfalse := List.all_eq_true.mp h a ha
        rw [hala] at hfalse
        simp at hfalse
    · intro hC
      have hne : raw ≠ [] := fun h => hC (Or.inl h)
      have h3 : ¬ (pyStrip raw).length < 3 :=
        fun h => hC (Or.inr (Or.inl h))
      have h2000 : ¬ MAX_CLAIM_LENGTH < raw.length :=
        fun h => hC (Or.inr (Or.inr (Or.inl h)))
      have hall : ¬ raw.all (fun c => !c.isAlpha) = true :=
        fun h => hC (Or.inr (Or.inr (Or.inr h)))
      have hany : raw.any Char.isAlpha = true := by
        rcases h : raw.any Char.isAlpha with _ | _
        · exfalso
          apply hall
          rw [List.all_eq_true]
          intro c hc
          have := List.any_eq_false.mp h c hc
          simp [this]
        · rfl
      have hc1 : ¬ raw.length < 3 := fun h => h3 (lt_of_le_of_lt hlen h)
      have hc3 : ¬ pyStrip raw = [] := by
        intro h
        apply h3
        rw [h]
        simp
      have hc7 : ¬ MAX_CLAIM_LENGTH < (pyStrip raw).length :=
        fun h => h2000 (lt_of_lt_of_le h hlen)
      refine ⟨sanitize_claim_text (pyStrip raw), ?_⟩
      simp only [apiValidate, validate_claim_input, hid, halpha]
      simp [hc1, h2000, hc3, h3, hc7, hany]
  · intro v hv
    simp only [apiValidate, validate_claim_input] at hv
    split_ifs at hv with c1 c2 c3 c4 c5 c6 c7 <;> try simp at hv
    rw [pyStrip_idem] at hv
    exact hv.symm

/-- C10 counterexample: with evidence of mixed-sign weights (cosine
similarity can be negative), a well-formed LLM verdict and an out-of-range
LLM confidence, the replacement consensus confidence is −0.18, outside
[0.4, 0.98]: the agreement ratio 0.5/−0.5 = −1 gives 0.4 − 0.58, and
`min(…, 0.98)` never clamps from below. -/
theorem reason_confidence_range_counterexample :
    (reason "c" "c"
        [{ id := 1, claim_text := "e1", normalized_text := "e1",
           verdict := "True", confidence := 9/10, source := "s",
           source_reliability := 1, timestamp := .age 0, seen_count := 1,
           similarity_score := 1/2 },
         { id := 2, claim_text := "e2", normalized_text := "e2",
           verdict := "False", confidence := 9/10, source := "s",
           source_reliability := 1, timestamp := .age 0, seen_count := 1,
           similarity_score := -1 }]
        (.ok { verdict := "True", confidence := 2, explanation := "x",
               reasoning := "y", cited_ids := ["1"] })).confidence = -18/100
    ∧ ((2 : ℚ) ≤ 1/100 ∨ 1 < (2 : ℚ))
    ∧ ¬(4/10 ≤ (-18/100 : ℚ)) := by
  refine ⟨?_, by norm_num, by norm_num⟩
  have h1 : ¬("False" = "True") := by decide
  simp [reason, VERDICT_TRUE, VERDICT_FALSE, VERDICT_UNCERTAIN,
    calculate_consensus_confidence, totalWeight, verdictScore, evWeight,
    List.filter_cons, h1]
  norm_num

/-- C10 (amended): on a successfully parsed LLM response, the verdict is
always one of True/False/Uncertain (anything else is replaced by
Uncertain); an in-range LLM confidence is kept while one `≤ 0.01` or `> 1`
is replaced by the consensus confidence; and the consensus confidence is
0.5 with no evidence or zero total weight, and lies in [0.4, 0.98] whenever
every evidence item's weight (`source_reliability * similarity_score`) is
nonnegative. -/
theorem reason_output_wellformed :
    (∀ (claim_text normalized_claim : String)
        (evidence : List RetrievedClaim) (out : LLMOutput),
        (reason claim_text normalized_claim evidence (.ok out)).verdict
            = VERDICT_TRUE
          ∨ (reason claim_text normalized_claim evidence (.ok out)).verdict
            = VERDICT_FALSE
          ∨ (reason claim_text normalized_claim evidence (.ok out)).verdict
            = VERDICT_UNCERTAIN)
    ∧ (∀ (claim_text normalized_claim : String)
        (evidence : List RetrievedClaim) (out : LLMOutput),
        ¬(out.confidence ≤ 1/100 ∨ 1 < out.confidence) →
        (reason claim_text normalized_claim evidence (.ok out)).confidence
          = out.confidence)
    ∧ (∀ (claim_text normalized_claim : String)
        (evidence : List RetrievedClaim) (out : LLMOutput),
        (out.confidence ≤ 1/100 ∨ 1 < out.confidence) →
        (reason claim_text normalized_claim evidence (.ok out)).confidence
          = calculate_consensus_confidence evidence
              (reason claim_text normalized_claim evidence (.ok out)).verdict)
    ∧ (∀ (evidence : List RetrievedClaim) (v : String),
        (∀ ev ∈ evidence, 0 ≤ evWeight ev) →
        4/10 ≤ calculate_consensus_confidence evidence v
          ∧ calculate_consensus_confidence evidence v ≤ 98/100)
    ∧ (∀ v : String, calculate_consensus_confidence [] v
        = LOW_CONFIDENCE_THRESHOLD)
    ∧ (∀ (evidence : List RetrievedClaim) (v : String),
        totalWeight evidence = 0 →
        calculate_consensus_confidence evidence v
          = LOW_CONFIDENCE_THRESHOLD) := by
  refine ⟨?_, ?_, ?_, ?_, ?_, ?_⟩
  · intro claim_text normalized_claim evidence out
    simp only [reason]
    by_cases h : out.verdict = VERDICT_TRUE ∨ out.verdict = VERDICT_FALSE
        ∨ out.verdict = VERDICT_UNCERTAIN
    · rw [if_pos h]
      exact h
    · rw [if_neg h]
      right
      right
      rfl
  · intro claim_text normalized_claim evidence out h
    simp only [reason]
    rw [if_neg h]
  · intro claim_text normalized_claim evidence out h
    simp only [reason]
    rw [if_pos h]
  · intro evidence v hw
    by_cases he : evidence = []
    · subst he
      simp [calculate_consensus_confidence, LOW_CONFIDENCE_THRESHOLD]
      norm_num
    · by_cases ht : totalWeight evidence = 0
      · simp [calculate_consensus_confidence, he, ht,
          LOW_CONFIDENCE_THRESHOLD]
        norm_num
      · have hnn : ∀ a ∈ evidence.map evWeight, (0 : ℚ) ≤ a := by
          intro a ha
          obtain ⟨ev, hev, rfl⟩ := List.mem_map.mp ha
          exact hw ev hev
        have h0 : (0 : ℚ) ≤ totalWeight evidence := by
          have := (List.nil_sublist (evidence.map evWeight)).sum_le_sum hnn
          simpa [totalWeight] using this
        have htpos : (0 : ℚ) < totalWeight evidence :=
          lt_of_le_of_ne h0 (Ne.symm ht)
        have hvs0 : (0 : ℚ) ≤ verdictScore evidence v := by
          have hsub : ((evidence.filter (fun ev => ev.verdict = v)).map evWeight).Sublist
              (evidence.map evWeight) :=
            (List.filter_sublist _).map evWeight
          have := (List.nil_sublist
            ((evidence.filter (fun ev => ev.verdict = v)).map evWeight)).sum_le_sum
            (fun a ha => hnn a (hsub.subset ha))
          simpa [verdictScore] using this
        have hvst : verdictScore evidence v ≤ totalWeight evidence := by
          have hsub : ((evidence.filter (fun ev => ev.verdict = v)).map evWeight).Sublist
              (evidence.map evWeight) :=
            (List.filter_sublist _).map evWeight
          exact hsub.sum_le_sum hnn
        have hr0 : (0 : ℚ) ≤ verdictScore evidence v / totalWeight evidence :=
          div_nonneg hvs0 (le_of_lt htpos)
        have hr1 : verdictScore evidence v / totalWeight evidence ≤ 1 :=
          (div_le_one htpos).mpr hvst
        unfold calculate_consensus_confidence
        rw [if_neg he, if_neg ht]
        constructor
        · apply le_min
          · nlinarith
          · norm_num
        · exact min_le_right _ _
  · intro v
    simp [calculate_consensus_confidence]
  · intro evidence v ht
    by_cases he : evidence = []
    · simp [calculate_consensus_confidence, he]
    · simp [calculate_consensus_confidence, he, ht]

end Mnemonic
